import Mathlib

/-!
Verification of the shortcode / entity-mention subsystem of the gm-wiki
application, shallowly embedded from `app/shortcode.py`.

The embedding models:
* database rows of the mentionable models as `Row` (one record kind per
  model-class name, with the kind's display-name field abstracted as `name`),
* the SQLAlchemy session as a `DB` with `committed` rows, `pending`
  (added-and-flushed but uncommitted) rows, a `nextId` sequence and the
  `entity_mention` table,
* `ilike` as case-insensitive SQL LIKE matching (with `%` and `_` wildcards,
  as SQLAlchemy's `ilike` with no escape argument produces),
* the regex `#(npc|loc|item|quest|comp|pc|site)\[([^\]]+)\]` and Python's
  `re.sub` left-to-right non-overlapping substitution as a recursive scanner,
* `url_for` from the blueprint registrations in `app/routes/*.py`
  (`/npcs/<id>`, `/locations/<id>`, `/items/<id>`, `/quests/<id>`,
  `/compendium/<id>`, `/pcs/<id>`, `/sites/<id>`).
-/

namespace GmWiki

/-- A database row of one of the mentionable model classes.  `model` is the
model-class name (`"NPC"`, `"Location"`, ...; also `"Session"` /
`"BestiaryEntry"` for rows that act only as mention sources).  `name` is the
value of that kind's display-name field (`name`, `title` for
`CompendiumEntry`, `character_name` for `PlayerCharacter`).  `status` is the
`status` keyword passed to the model constructor (`some "active"` only for
quest stubs; `none` means the constructor was not given a status). -/
structure Row where
  model : String
  id : Nat
  campaignId : Nat
  name : String
  status : Option String
deriving DecidableEq

/-- A row of the `entity_mention` table (`EntityMention` in `app/models.py`);
the auto-assigned primary key is irrelevant to the claims and omitted. -/
structure Mention where
  campaignId : Nat
  sourceType : String
  sourceId : Nat
  targetType : String
  targetId : Nat
deriving DecidableEq

/-- The database together with the SQLAlchemy session state: `committed`
rows are durable; `pending` rows have been `add`ed and `flush`ed (so they
have ids and are visible to queries in the same transaction) but not
committed; `nextId` models the id sequence used at flush time. -/
structure DB where
  committed : List Row
  pending : List Row
  nextId : Nat
  mentions : List Mention
deriving DecidableEq

/-- Rows visible to queries inside the transaction: committed plus flushed. -/
def DB.rows (db : DB) : List Row := db.committed ++ db.pending

/-- Rolling back the enclosing transaction discards all uncommitted rows. -/
def DB.rollback (db : DB) : DB := { db with pending := [] }

/-- One entry of `TYPE_CONFIG`: model-class name, human label, and the URL
base of the kind's detail route (from the blueprint registrations). -/
structure TypeCfg where
  model : String
  label : String
  urlBase : String
deriving DecidableEq

/-- `TYPE_CONFIG.get` from `app/shortcode.py`. -/
def typeConfig? : String → Option TypeCfg
  | "npc" => some ⟨"NPC", "NPC", "/npcs"⟩
  | "loc" => some ⟨"Location", "Location", "/locations"⟩
  | "item" => some ⟨"Item", "Item", "/items"⟩
  | "quest" => some ⟨"Quest", "Quest", "/quests"⟩
  | "comp" => some ⟨"CompendiumEntry", "Compendium", "/compendium"⟩
  | "pc" => some ⟨"PlayerCharacter", "PC", "/pcs"⟩
  | "site" => some ⟨"AdventureSite", "Adventure Site", "/sites"⟩
  | _ => none

/-- The alternation of `SHORTCODE_RE`, in source order. -/
def codeList : List String := ["npc", "loc", "item", "quest", "comp", "pc", "site"]

/-- Case-insensitive SQL LIKE matching: `%` matches any sequence, `_` any
single character, other characters match up to letter case.  This is the
semantics of `column.ilike(pattern)` with no escape character. -/
def likeMatch : List Char → List Char → Bool
  | [], cs => cs.isEmpty
  | '%' :: ps, cs => cs.tails.any (fun t => likeMatch ps t)
  | '_' :: ps, cs =>
    match cs with
    | [] => false
    | _ :: cs' => likeMatch ps cs'
  | p :: ps, cs =>
    match cs with
    | [] => false
    | c :: cs' => (p.toLower == c.toLower) && likeMatch ps cs'

/-- `value ILIKE pattern`. -/
def ilike (pat value : String) : Bool := likeMatch pat.toList value.toList

/-- ASCII whitespace as stripped by Python's `str.strip()`. -/
def pyWs (c : Char) : Bool :=
  c == ' ' || c == '\t' || c == '\n' || c == '\r' || c == '\x0b' || c == '\x0c'

/-- Python `str.strip()` on a character list. -/
def stripChars (cs : List Char) : List Char :=
  ((cs.dropWhile pyWs).reverse.dropWhile pyWs).reverse

/-- Python `str.strip()`. -/
def pyStrip (s : String) : String := String.mk (stripChars s.toList)

/-- `model_cls.query.filter(campaign_id == cid, name_col.ilike(pat)).first()`:
the first visible row of the model in the campaign whose display name
ILIKE-matches the pattern. -/
def lookupFirst (db : DB) (model : String) (cid : Nat) (pat : String) : Option Row :=
  db.rows.find? (fun r => r.model == model && r.campaignId == cid && ilike pat r.name)

/-- `model_cls.query.get(i)`: primary-key lookup, not campaign-scoped. -/
def getById (db : DB) (model : String) (i : Nat) : Option Row :=
  db.rows.find? (fun r => r.model == model && r.id == i)

/-- `_find_or_create_entity` from `app/shortcode.py`.  Returns
`(entity?, was_created, db)`.  For `pc` the lookup result is returned as
is (never creates).  Otherwise a miss creates a minimal stub: display-name
field and campaign id, plus `status='active'` for quests (the `comp` branch
passes only `title`, identical to the generic branch under the display-name
abstraction); the stub is `add`ed and `flush`ed, which assigns its id and
makes it visible to later queries in the same transaction.  The `none`
config case is unreachable from `process_shortcodes` (Python would raise a
`KeyError`). -/
def find_or_create_entity (typeKey : String) (name : String) (campaignId : Nat)
    (db : DB) : Option Row × Bool × DB :=
  match typeConfig? typeKey with
  | none => (none, false, db)
  | some cfg =>
    if typeKey == "pc" then
      (lookupFirst db cfg.model campaignId name, false, db)
    else
      match lookupFirst db cfg.model campaignId name with
      | some e => (some e, false, db)
      | none =>
        let stub : Row :=
          { model := cfg.model, id := db.nextId, campaignId := campaignId,
            name := name,
            status := if typeKey == "quest" then some "active" else none }
        (some stub, true,
          { db with pending := db.pending ++ [stub], nextId := db.nextId + 1 })

/-- `_entity_url`: `url_for(cfg.route, id_param := entityId)` per the route
registrations.  Unreachable `none` case: `url_for` would raise. -/
def entity_url (typeKey : String) (entityId : Nat) : String :=
  match typeConfig? typeKey with
  | some cfg => cfg.urlBase ++ "/" ++ toString entityId
  | none => ""

/-- The anchor produced by `replace_match` for a resolved entity; the link
text is the entity's stored display name. -/
def renderLink (typeKey : String) (e : Row) : String :=
  "<a href=\"" ++ entity_url typeKey e.id ++ "\" class=\"shortcode-link\"" ++
    " data-preview-type=\"" ++ typeKey ++ "\"" ++
    " data-preview-id=\"" ++ toString e.id ++ "\">" ++ e.name ++ "</a>"

/-- Attempt to match the tail of `SHORTCODE_RE` (after `#`) for one
alternation candidate `code` at the head of `rest`: the code itself, `[`,
a non-empty greedy run of non-`]` characters, then `]`.  Returns the code,
the raw (untrimmed) name and the remaining input. -/
def tryAfterCode (code : String) (rest : List Char) :
    Option (String × List Char × List Char) :=
  if code.toList.isPrefixOf rest then
    match rest.drop code.length with
    | '[' :: afterBracket =>
      let nm := afterBracket.takeWhile (fun c => c != ']')
      match afterBracket.dropWhile (fun c => c != ']') with
      | ']' :: tail => if nm.isEmpty then none else some (code, nm, tail)
      | _ => none
    | _ => none
  else none

/-- Ordered alternation over the type codes, as the regex engine tries them. -/
def tryCodes : List String → List Char → Option (String × List Char × List Char)
  | [], _ => none
  | k :: ks, rest =>
    match tryAfterCode k rest with
    | some r => some r
    | none => tryCodes ks rest

/-- Attempt to match `SHORTCODE_RE` at the start of the input. -/
def tryParse : List Char → Option (String × List Char × List Char)
  | '#' :: rest => tryCodes codeList rest
  | _ => none

/-- The mutable state of one `process_shortcodes` call: the session plus the
closure variables `seen_targets` and `mentions`. -/
structure ScanState where
  db : DB
  seen : List (String × Nat)
  mentions : List Mention
deriving DecidableEq

/-- The `replace_match` closure of `process_shortcodes`: trim the captured
name, find or create the entity; a `None` entity (PC miss) returns the whole
matched text unchanged; otherwise record a deduplicated mention keyed on
`(type_key, entity.id)` and return the rendered anchor showing the entity's
stored display name. -/
def replace_match (campaignId : Nat) (sourceType : String) (sourceId : Nat)
    (typeKey : String) (rawName : List Char) (s : ScanState) : String × ScanState :=
  let name := String.mk (stripChars rawName)
  match find_or_create_entity typeKey name campaignId s.db with
  | (none, _, db') =>
    ("#" ++ typeKey ++ "[" ++ String.mk rawName ++ "]", { s with db := db' })
  | (some e, _, db') =>
    let key := (typeKey, e.id)
    let s' : ScanState :=
      if key ∈ s.seen then { s with db := db' }
      else
        { db := db', seen := s.seen ++ [key],
          mentions := s.mentions ++
            [{ campaignId := campaignId, sourceType := sourceType,
               sourceId := sourceId, targetType := typeKey, targetId := e.id }] }
    (renderLink typeKey e, s')

/-- `SHORTCODE_RE.sub(replace_match, text)`: a single left-to-right pass; at
each position the pattern either matches (the replacement is emitted and the
scan resumes after the match) or the character is copied.  Structured with a
fuel argument (one unit per emitted item); fuel at least the input length is
always sufficient because a match consumes at least one character. -/
def runSub (campaignId : Nat) (sourceType : String) (sourceId : Nat) :
    Nat → List Char → ScanState → List Char × ScanState
  | 0, cs, s => (cs, s)
  | _ + 1, [], s => ([], s)
  | fuel + 1, c :: rest, s =>
    match tryParse (c :: rest) with
    | some (k, rawName, tail) =>
      let p := replace_match campaignId sourceType sourceId k rawName s
      let q := runSub campaignId sourceType sourceId fuel tail p.2
      (p.1.toList ++ q.1, q.2)
    | none =>
      let q := runSub campaignId sourceType sourceId fuel rest s
      (c :: q.1, q.2)

/-- The substitution pass at its canonical fuel. -/
def scan (campaignId : Nat) (sourceType : String) (sourceId : Nat)
    (cs : List Char) (s : ScanState) : List Char × ScanState :=
  runSub campaignId sourceType sourceId cs.length cs s

/-- `process_shortcodes` from `app/shortcode.py`: returns the processed
text, the list of new `EntityMention` records (the caller adds and commits
them), and the session state (which may hold flushed stub entities). -/
def process_shortcodes (text : String) (campaignId : Nat) (sourceType : String)
    (sourceId : Nat) (db : DB) : String × List Mention × DB :=
  if text.isEmpty then (text, [], db)
  else
    let r := scan campaignId sourceType sourceId text.toList ⟨db, [], []⟩
    (String.mk r.1, r.2.mentions, r.2.db)

/-- `clear_mentions`: delete every `EntityMention` row for the source. -/
def clear_mentions (sourceType : String) (sourceId : Nat) (db : DB) : DB :=
  { db with mentions :=
      db.mentions.filter (fun m => !(m.sourceType == sourceType && m.sourceId == sourceId)) }

/-- The caller persisting the edge list returned by `process_shortcodes`
(`db.session.add` on each mention). -/
def addMentions (db : DB) (ms : List Mention) : DB :=
  { db with mentions := db.mentions ++ ms }

/-- A dict produced by `resolve_mentions_for_source`. -/
structure LinkedEntry where
  type : String
  id : Nat
  label : String
  typeLabel : String
  url : String
deriving DecidableEq

/-- A dict produced by `resolve_mentions_for_target`. -/
structure RefEntry where
  type : String
  id : Nat
  label : String
  url : String
deriving DecidableEq

/-- The loop body of `resolve_mentions_for_source`: unknown target type
code or a missing target row is skipped with `continue`. -/
def resolveSourceLoop (db : DB) : List Mention → List LinkedEntry
  | [] => []
  | m :: rest =>
    match typeConfig? m.targetType with
    | none => resolveSourceLoop db rest
    | some cfg =>
      match getById db cfg.model m.targetId with
      | none => resolveSourceLoop db rest
      | some e =>
        { type := m.targetType, id := m.targetId, label := e.name,
          typeLabel := cfg.label, url := entity_url m.targetType m.targetId }
          :: resolveSourceLoop db rest

/-- `resolve_mentions_for_source`: the "Linked Entities" query
(`mentions_referenced_by` in the spec). -/
def resolve_mentions_for_source (sourceType : String) (sourceId : Nat)
    (db : DB) : List LinkedEntry :=
  resolveSourceLoop db (db.mentions.filter
    (fun m => m.sourceType == sourceType && m.sourceId == sourceId))

/-- The loop body of `resolve_mentions_for_target`: the entry is built from
the mention's SOURCE side, so a source type code outside `TYPE_CONFIG` (or a
missing source row) is skipped with `continue`. -/
def resolveTargetLoop (db : DB) : List Mention → List RefEntry
  | [] => []
  | m :: rest =>
    match typeConfig? m.sourceType with
    | none => resolveTargetLoop db rest
    | some cfg =>
      match getById db cfg.model m.sourceId with
      | none => resolveTargetLoop db rest
      | some e =>
        { type := m.sourceType, id := m.sourceId,
          label := cfg.label ++ ": " ++ e.name,
          url := entity_url m.sourceType m.sourceId }
          :: resolveTargetLoop db rest

/-- `resolve_mentions_for_target`: the "Referenced by" query
(`mentions_referencing` in the spec). -/
def resolve_mentions_for_target (targetType : String) (targetId : Nat)
    (db : DB) : List RefEntry :=
  resolveTargetLoop db (db.mentions.filter
    (fun m => m.targetType == targetType && m.targetId == targetId))

/-- The model class that rows of a given mention SOURCE type belong to.
The seven shortcode codes come from `TYPE_CONFIG`; the editors in
`app/routes/sessions.py` and `app/routes/bestiary.py` additionally write
mention rows with source types `"session"` (rows of `Session`) and
`"bestiary"` (rows of `BestiaryEntry`). -/
def sourceModel (sourceType : String) : Option String :=
  match typeConfig? sourceType with
  | some cfg => some cfg.model
  | none =>
    if sourceType == "session" then some "Session"
    else if sourceType == "bestiary" then some "BestiaryEntry"
    else none

/-- `text` contains no occurrence of `SHORTCODE_RE`: no suffix of the text
begins a match. -/
def noMarker : List Char → Bool
  | [] => true
  | c :: rest => (tryParse (c :: rest)).isNone && noMarker rest

theorem runSub_nil (cid : Nat) (st : String) (sid : Nat) (f : Nat) (s : ScanState) :
    runSub cid st sid f [] s = ([], s) := by
  cases f <;> rfl

theorem length_dropWhile_le (p : Char → Bool) (l : List Char) :
    (l.dropWhile p).length ≤ l.length := by
  induction l with
  | nil => simp [List.dropWhile]
  | cons c cs ih =>
    rw [List.dropWhile_cons]
    split
    · exact le_trans ih (Nat.le_succ _)
    · exact le_refl _

theorem tryAfterCode_length {code : String} {rest : List Char} {k : String}
    {nm t : List Char} (h : tryAfterCode code rest = some (k, nm, t)) :
    t.length < rest.length := by
  unfold tryAfterCode at h
  split at h
  case isFalse => exact absurd h (by simp)
  case isTrue hpre =>
    split at h
    case _ ab heq =>
      split at h
      case _ tail heq2 =>
        have h' : (if (List.takeWhile (fun c => c != ']') ab).isEmpty = true then none
            else some (code, List.takeWhile (fun c => c != ']') ab, tail))
            = some (k, nm, t) := h
        by_cases hemp : (List.takeWhile (fun c => c != ']') ab).isEmpty = true
        · rw [if_pos hemp] at h'
          exact absurd h' (by simp)
        · rw [if_neg hemp] at h'
          simp only [Option.some.injEq, Prod.mk.injEq] at h'
          obtain ⟨-, -, rfl⟩ := h'
          have l1 : (List.drop code.length rest).length = ab.length + 1 := by
            rw [heq]; simp
          have l2 : (List.dropWhile (fun c => c != ']') ab).length ≤ ab.length :=
            length_dropWhile_le _ _
          have l3 : (List.dropWhile (fun c => c != ']') ab).length = tail.length + 1 := by
            rw [heq2]; simp
          have l4 : (List.drop code.length rest).length = rest.length - code.length :=
            List.length_drop _ _
          omega
      case _ heq2 => exact absurd h (by simp)
    case _ heq => exact absurd h (by simp)

theorem tryCodes_length : ∀ (ks : List String) {rest : List Char} {k : String}
    {nm t : List Char}, tryCodes ks rest = some (k, nm, t) → t.length < rest.length := by
  intro ks
  induction ks with
  | nil => intro rest k nm t h; exact absurd h (by simp [tryCodes])
  | cons a as ih =>
    intro rest k nm t h
    unfold tryCodes at h
    cases hac : tryAfterCode a rest with
    | some r =>
      rw [hac] at h
      obtain ⟨k', nm', t'⟩ := r
      simp only [Option.some.injEq] at h
      rw [h] at hac
      exact tryAfterCode_length hac
    | none =>
      rw [hac] at h
      exact ih h

theorem tryParse_not_hash {c : Char} (hc : c ≠ '#') (rest : List Char) :
    tryParse (c :: rest) = none := by
  unfold tryParse
  split
  · rename_i heq
    exact absurd (by injection heq) hc
  · rfl

theorem tryParse_hash (rest : List Char) :
    tryParse ('#' :: rest) = tryCodes codeList rest := rfl

theorem tryParse_length : ∀ {cs : List Char} {k : String} {nm t : List Char},
    tryParse cs = some (k, nm, t) → t.length < cs.length := by
  intro cs k nm t h
  match cs with
  | [] => exact absurd h (by simp [tryParse])
  | c :: rest =>
    by_cases hc : c = '#'
    · subst hc
      rw [tryParse_hash] at h
      have := tryCodes_length codeList h
      simp only [List.length_cons]
      omega
    · rw [tryParse_not_hash hc] at h
      exact absurd h (by simp)

theorem runSub_fuel_eq (cid : Nat) (st : String) (sid : Nat) :
    ∀ (f g : Nat) (cs : List Char) (s : ScanState), cs.length ≤ f → cs.length ≤ g →
      runSub cid st sid f cs s = runSub cid st sid g cs s := by
  intro f
  induction f with
  | zero =>
    intro g cs s hf hg
    have hcs : cs = [] := List.eq_nil_of_length_eq_zero (Nat.le_zero.mp hf)
    subst hcs
    rw [runSub_nil, runSub_nil]
  | succ f ih =>
    intro g cs s hf hg
    cases cs with
    | nil => rw [runSub_nil, runSub_nil]
    | cons c rest =>
      cases g with
      | zero => simp at hg
      | succ g =>
        show runSub cid st sid (f + 1) (c :: rest) s
            = runSub cid st sid (g + 1) (c :: rest) s
        unfold runSub
        cases htp : tryParse (c :: rest) with
        | some r =>
          obtain ⟨k, nm, tail⟩ := r
          simp only [htp]
          have hlen := tryParse_length htp
          simp only [List.length_cons] at hf hg hlen
          rw [ih g tail _ (by omega) (by omega)]
        | none =>
          simp only [htp]
          simp only [List.length_cons] at hf hg
          rw [ih g rest s (by omega) (by omega)]

theorem scan_nil (cid : Nat) (st : String) (sid : Nat) (s : ScanState) :
    scan cid st sid [] s = ([], s) := rfl

theorem scan_cons_none {c : Char} {rest : List Char} (cid : Nat) (st : String)
    (sid : Nat) (s : ScanState) (h : tryParse (c :: rest) = none) :
    scan cid st sid (c :: rest) s
      = ((c :: (scan cid st sid rest s).1), (scan cid st sid rest s).2) := by
  show runSub cid st sid (rest.length + 1) (c :: rest) s = _
  unfold runSub
  simp only [h]
  rfl

theorem scan_cons_some {c : Char} {rest : List Char} {k : String} {nm tail : List Char}
    (cid : Nat) (st : String) (sid : Nat) (s : ScanState)
    (h : tryParse (c :: rest) = some (k, nm, tail)) :
    scan cid st sid (c :: rest) s
      = ((replace_match cid st sid k nm s).1.toList
           ++ (scan cid st sid tail (replace_match cid st sid k nm s).2).1,
         (scan cid st sid tail (replace_match cid st sid k nm s).2).2) := by
  show runSub cid st sid (rest.length + 1) (c :: rest) s = _
  unfold runSub
  simp only [h]
  have hlen := tryParse_length h
  simp only [List.length_cons] at hlen
  rw [runSub_fuel_eq cid st sid rest.length tail.length tail _ (by omega) (by omega)]
  rfl

theorem takeWhile_middle (p : Char → Bool) :
    ∀ (l : List Char) (x : Char) (r : List Char), (∀ c ∈ l, p c = true) → p x = false →
      (l ++ x :: r).takeWhile p = l := by
  intro l
  induction l with
  | nil => intro x r _ hx; simp [List.takeWhile_cons, hx]
  | cons a as ih =>
    intro x r hl hx
    have ha : p a = true := hl a (by simp)
    simp only [List.cons_append, List.takeWhile_cons, ha, if_true]
    rw [ih x r (fun c hc => hl c (by simp [hc])) hx]

theorem dropWhile_middle (p : Char → Bool) :
    ∀ (l : List Char) (x : Char) (r : List Char), (∀ c ∈ l, p c = true) → p x = false →
      (l ++ x :: r).dropWhile p = x :: r := by
  intro l
  induction l with
  | nil => intro x r _ hx; simp [List.dropWhile_cons, hx]
  | cons a as ih =>
    intro x r hl hx
    have ha : p a = true := hl a (by simp)
    simp only [List.cons_append, List.dropWhile_cons, ha, if_true]
    exact ih x r (fun c hc => hl c (by simp [hc])) hx

/-- A successful match of one alternation candidate at the head of the input:
the code, `[`, a non-empty bracket-free name, `]`. -/
theorem tryAfterCode_marker (k : String) {nm : List Char} (hne : nm ≠ [])
    (hnb : ']' ∉ nm) (rest : List Char) :
    tryAfterCode k (k.toList ++ '[' :: (nm ++ ']' :: rest)) = some (k, nm, rest) := by
  have hpw : ∀ c ∈ nm, (c != ']') = true := by
    intro c hc
    simp only [bne_iff_ne, ne_eq]
    intro hcc
    exact hnb (hcc ▸ hc)
  have hbr : ((']' : Char) != ']') = false := by simp
  have hpre : k.toList.isPrefixOf (k.toList ++ '[' :: (nm ++ ']' :: rest)) = true := by
    simp [List.isPrefixOf_iff_prefix]
  have hdropk : (k.toList ++ '[' :: (nm ++ ']' :: rest)).drop k.length
      = '[' :: (nm ++ ']' :: rest) := by
    have hkl : k.length = k.toList.length := rfl
    rw [hkl, List.drop_left]
  have htw := takeWhile_middle (fun c => c != ']') nm ']' rest hpw hbr
  have hdw := dropWhile_middle (fun c => c != ']') nm ']' rest hpw hbr
  simp only [tryAfterCode, hpre, hdropk, htw, hdw, if_true]
  simp [List.isEmpty_iff, hne]

/-- An alternation candidate whose first character differs from the input's
first character cannot match. -/
theorem tryAfterCode_head_ne (j : String) (a c : Char) {as : List Char}
    (hj : j.toList = a :: as) {cs : List Char} (h : (a == c) = false) :
    tryAfterCode j (c :: cs) = none := by
  unfold tryAfterCode
  rw [hj]
  have : (a :: as).isPrefixOf (c :: cs) = false := by
    simp only [List.isPrefixOf_cons₂]
    rw [h]
    simp
  rw [this]
  simp

theorem tryCodes_cons_none {j : String} {ks : List String} {rest : List Char}
    (h : tryAfterCode j rest = none) :
    tryCodes (j :: ks) rest = tryCodes ks rest := by
  conv_lhs => rw [tryCodes]
  rw [h]

theorem tryCodes_cons_some {j : String} {ks : List String} {rest : List Char}
    {r : String × List Char × List Char} (h : tryAfterCode j rest = some r) :
    tryCodes (j :: ks) rest = some r := by
  conv_lhs => rw [tryCodes]
  rw [h]

/-- `SHORTCODE_RE` matches at the head of the input exactly when a valid type
code is followed by a bracketed non-empty name free of `]`. -/
theorem tryParse_marker {k : String} (hk : k ∈ codeList) {nm : List Char}
    (hne : nm ≠ []) (hnb : ']' ∉ nm) (rest : List Char) :
    tryParse ('#' :: (k.toList ++ '[' :: (nm ++ ']' :: rest))) = some (k, nm, rest) := by
  have hm := tryAfterCode_marker k hne hnb rest
  rw [tryParse_hash]
  rw [show codeList = ["npc", "loc", "item", "quest", "comp", "pc", "site"] from rfl]
  simp only [codeList, List.mem_cons, List.not_mem_nil, or_false] at hk
  rcases hk with rfl | rfl | rfl | rfl | rfl | rfl | rfl
  · rw [tryCodes_cons_some hm]
  · rw [show "loc".toList = ['l', 'o', 'c'] from rfl] at hm ⊢
    simp only [List.cons_append] at hm ⊢
    rw [tryCodes_cons_none (tryAfterCode_head_ne "npc" 'n' 'l' rfl rfl),
        tryCodes_cons_some hm]
  · rw [show "item".toList = ['i', 't', 'e', 'm'] from rfl] at hm ⊢
    simp only [List.cons_append] at hm ⊢
    rw [tryCodes_cons_none (tryAfterCode_head_ne "npc" 'n' 'i' rfl rfl),
        tryCodes_cons_none (tryAfterCode_head_ne "loc" 'l' 'i' rfl rfl),
        tryCodes_cons_some hm]
  · rw [show "quest".toList = ['q', 'u', 'e', 's', 't'] from rfl] at hm ⊢
    simp only [List.cons_append] at hm ⊢
    rw [tryCodes_cons_none (tryAfterCode_head_ne "npc" 'n' 'q' rfl rfl),
        tryCodes_cons_none (tryAfterCode_head_ne "loc" 'l' 'q' rfl rfl),
        tryCodes_cons_none (tryAfterCode_head_ne "item" 'i' 'q' rfl rfl),
        tryCodes_cons_some hm]
  · rw [show "comp".toList = ['c', 'o', 'm', 'p'] from rfl] at hm ⊢
    simp only [List.cons_append] at hm ⊢
    rw [tryCodes_cons_none (tryAfterCode_head_ne "npc" 'n' 'c' rfl rfl),
        tryCodes_cons_none (tryAfterCode_head_ne "loc" 'l' 'c' rfl rfl),
        tryCodes_cons_none (tryAfterCode_head_ne "item" 'i' 'c' rfl rfl),
        tryCodes_cons_none (tryAfterCode_head_ne "quest" 'q' 'c' rfl rfl),
        tryCodes_cons_some hm]
  · rw [show "pc".toList = ['p', 'c'] from rfl] at hm ⊢
    simp only [List.cons_append] at hm ⊢
    rw [tryCodes_cons_none (tryAfterCode_head_ne "npc" 'n' 'p' rfl rfl),
        tryCodes_cons_none (tryAfterCode_head_ne "loc" 'l' 'p' rfl rfl),
        tryCodes_cons_none (tryAfterCode_head_ne "item" 'i' 'p' rfl rfl),
        tryCodes_cons_none (tryAfterCode_head_ne "quest" 'q' 'p' rfl rfl),
        tryCodes_cons_none (tryAfterCode_head_ne "comp" 'c' 'p' rfl rfl),
        tryCodes_cons_some hm]
  · rw [show "site".toList = ['s', 'i', 't', 'e'] from rfl] at hm ⊢
    simp only [List.cons_append] at hm ⊢
    rw [tryCodes_cons_none (tryAfterCode_head_ne "npc" 'n' 's' rfl rfl),
        tryCodes_cons_none (tryAfterCode_head_ne "loc" 'l' 's' rfl rfl),
        tryCodes_cons_none (tryAfterCode_head_ne "item" 'i' 's' rfl rfl),
        tryCodes_cons_none (tryAfterCode_head_ne "quest" 'q' 's' rfl rfl),
        tryCodes_cons_none (tryAfterCode_head_ne "comp" 'c' 's' rfl rfl),
        tryCodes_cons_none (tryAfterCode_head_ne "pc" 'p' 's' rfl rfl),
        tryCodes_cons_some hm]

theorem runSub_noMarker (cid : Nat) (st : String) (sid : Nat) :
    ∀ (f : Nat) (cs : List Char) (s : ScanState), noMarker cs = true →
      runSub cid st sid f cs s = (cs, s) := by
  intro f
  induction f with
  | zero => intro cs s _; rfl
  | succ f ih =>
    intro cs s h
    cases cs with
    | nil => rfl
    | cons c rest =>
      unfold noMarker at h
      simp only [Bool.and_eq_true, Option.isNone_iff_eq_none] at h
      obtain ⟨h1, h2⟩ := h
      show runSub cid st sid (f + 1) (c :: rest) s = _
      unfold runSub
      simp only [h1]
      rw [ih rest s h2]

theorem scan_noMarker (cid : Nat) (st : String) (sid : Nat) (cs : List Char)
    (s : ScanState) (h : noMarker cs = true) :
    scan cid st sid cs s = (cs, s) :=
  runSub_noMarker cid st sid cs.length cs s h

theorem find_or_create_db_inv (typeKey name : String) (cid : Nat) (db : DB) :
    (find_or_create_entity typeKey name cid db).2.2.committed = db.committed ∧
    (find_or_create_entity typeKey name cid db).2.2.mentions = db.mentions := by
  unfold find_or_create_entity
  split
  · exact ⟨rfl, rfl⟩
  · split
    · exact ⟨rfl, rfl⟩
    · split
      · exact ⟨rfl, rfl⟩
      · exact ⟨rfl, rfl⟩

theorem replace_match_db_inv (cid : Nat) (st : String) (sid : Nat) (k : String)
    (nm : List Char) (s : ScanState) :
    (replace_match cid st sid k nm s).2.db.committed = s.db.committed ∧
    (replace_match cid st sid k nm s).2.db.mentions = s.db.mentions := by
  have h := find_or_create_db_inv k (String.mk (stripChars nm)) cid s.db
  simp only [replace_match]
  split
  · rename_i wc db' heq
    rw [heq] at h
    exact h
  · rename_i e wc db' heq
    rw [heq] at h
    dsimp only
    split
    · exact h
    · exact h

theorem runSub_db_inv (cid : Nat) (st : String) (sid : Nat) :
    ∀ (f : Nat) (cs : List Char) (s : ScanState),
      (runSub cid st sid f cs s).2.db.committed = s.db.committed ∧
      (runSub cid st sid f cs s).2.db.mentions = s.db.mentions := by
  intro f
  induction f with
  | zero => intro cs s; exact ⟨rfl, rfl⟩
  | succ f ih =>
    intro cs s
    cases cs with
    | nil => exact ⟨rfl, rfl⟩
    | cons c rest =>
      show (runSub cid st sid (f + 1) (c :: rest) s).2.db.committed = _ ∧ _
      unfold runSub
      cases htp : tryParse (c :: rest) with
      | some r =>
        obtain ⟨k, nm, tail⟩ := r
        simp only [htp]
        have h1 := replace_match_db_inv cid st sid k nm s
        have h2 := ih tail (replace_match cid st sid k nm s).2
        exact ⟨h2.1.trans h1.1, h2.2.trans h1.2⟩
      | none =>
        simp only [htp]
        exact ih rest s

/-- The deduplication key used by `process_shortcodes`: `(type_key, entity.id)`
as stored in the mention's target columns. -/
def mentionKey (m : Mention) : String × Nat := (m.targetType, m.targetId)

/-- Invariant maintained by the substitution pass: the emitted mentions have
pairwise-distinct target keys, and every emitted key is in `seen_targets`. -/
def ScanInv (s : ScanState) : Prop :=
  (s.mentions.map mentionKey).Nodup ∧ ∀ x ∈ s.mentions.map mentionKey, x ∈ s.seen

theorem replace_match_scanInv (cid : Nat) (st : String) (sid : Nat) (k : String)
    (nm : List Char) (s : ScanState) (h : ScanInv s) :
    ScanInv (replace_match cid st sid k nm s).2 := by
  obtain ⟨hnd, hsub⟩ := h
  simp only [replace_match]
  split
  · exact ⟨hnd, hsub⟩
  · rename_i e wc db' heq
    dsimp only
    split
    · exact ⟨hnd, hsub⟩
    · rename_i hnotin
      constructor
      · rw [List.map_append]
        rw [List.nodup_append]
        refine ⟨hnd, List.nodup_singleton _, ?_⟩
        intro x hx hx2
        simp only [List.map_cons, List.map_nil, List.mem_singleton, mentionKey] at hx2
        exact hnotin (hx2 ▸ hsub x hx)
      · intro x hx
        rw [List.map_append, List.mem_append] at hx
        rcases hx with hx | hx
        · exact List.mem_append_left _ (hsub x hx)
        · simp only [List.map_cons, List.map_nil, List.mem_singleton, mentionKey] at hx
          subst hx
          exact List.mem_append_right _ (by simp)

theorem runSub_scanInv (cid : Nat) (st : String) (sid : Nat) :
    ∀ (f : Nat) (cs : List Char) (s : ScanState), ScanInv s →
      ScanInv (runSub cid st sid f cs s).2 := by
  intro f
  induction f with
  | zero => intro cs s h; exact h
  | succ f ih =>
    intro cs s h
    cases cs with
    | nil => exact h
    | cons c rest =>
      show ScanInv (runSub cid st sid (f + 1) (c :: rest) s).2
      unfold runSub
      cases htp : tryParse (c :: rest) with
      | some r =>
        obtain ⟨k, nm, tail⟩ := r
        simp only [htp]
        exact ih tail _ (replace_match_scanInv cid st sid k nm s h)
      | none =>
        simp only [htp]
        exact ih rest s h

/-- A LIKE pattern matches any string equal to it up to letter case (each
literal pattern character matches itself case-insensitively, `%` matches the
corresponding one-character substring, `_` the corresponding character). -/
theorem likeMatch_of_toLower_eq :
    ∀ (p v : List Char), p.map Char.toLower = v.map Char.toLower → likeMatch p v = true := by
  intro p
  induction p with
  | nil =>
    intro v h
    simp only [List.map_nil] at h
    have hv : v = [] := by
      cases v with
      | nil => rfl
      | cons a b => simp at h
    subst hv; rfl
  | cons a ps ih =>
    intro v h
    cases v with
    | nil => simp at h
    | cons c vs =>
      simp only [List.map_cons, List.cons.injEq] at h
      obtain ⟨h1, h2⟩ := h
      by_cases ha : a = '%'
      · subst ha
        show ((c :: vs).tails.any fun t => likeMatch ps t) = true
        rw [List.any_eq_true]
        refine ⟨vs, (List.mem_tails _ _).2 ?_, ih vs h2⟩
        exact ⟨[c], rfl⟩
      · by_cases hb : a = '_'
        · subst hb
          show likeMatch ps vs = true
          exact ih vs h2
        · have heq : likeMatch (a :: ps) (c :: vs)
              = ((a.toLower == c.toLower) && likeMatch ps vs) := by
            simp only [likeMatch]
          rw [heq, Bool.and_eq_true]
          exact ⟨by rw [h1]; simp, ih vs h2⟩

theorem likeMatch_self (p : List Char) : likeMatch p p = true :=
  likeMatch_of_toLower_eq p p rfl

theorem ilike_self (s : String) : ilike s s = true := likeMatch_self s.toList

theorem isEmpty_false_of_ne_nil {s : String} (h : s.data ≠ []) : s.isEmpty = false := by
  cases s with
  | mk data =>
    cases data with
    | nil => exact absurd rfl h
    | cons c cs =>
      show (String.endPos ⟨c :: cs⟩ == 0) = false
      simp only [beq_eq_false_iff_ne, ne_eq, String.Pos.ext_iff]
      show ¬(String.utf8ByteSize ⟨c :: cs⟩ = 0)
      have hgo : String.utf8ByteSize ⟨c :: cs⟩ = String.utf8ByteSize.go cs + c.utf8Size := rfl
      have hp := c.utf8Size_pos
      omega

set_option maxRecDepth 10000 in
/-- C1: within one `process_shortcodes` call, at most one mention edge is
returned per `(target kind, target id)` pair — for every text, campaign,
source and database the returned edge list has pairwise-distinct target
keys — and, as in the spec's example, `"#loc[Town] and #loc[Town] again"`
over a database holding the location `Town` yields exactly one edge to it
while both marker occurrences are replaced by the rendered link in the
output text. -/
theorem claim_C1_mention_dedup :
    (∀ (text : String) (cid : Nat) (st : String) (sid : Nat) (db : DB),
        (((process_shortcodes text cid st sid db).2.1).map mentionKey).Nodup)
    ∧ process_shortcodes "#loc[Town] and #loc[Town] again" 1 "session" 7
          ⟨[⟨"Location", 1, 1, "Town", none⟩], [], 2, []⟩
        = (renderLink "loc" ⟨"Location", 1, 1, "Town", none⟩ ++ " and "
             ++ renderLink "loc" ⟨"Location", 1, 1, "Town", none⟩ ++ " again",
           [⟨1, "session", 7, "loc", 1⟩],
           ⟨[⟨"Location", 1, 1, "Town", none⟩], [], 2, []⟩) := by
  constructor
  · intro text cid st sid db
    unfold process_shortcodes
    split
    · simp
    · exact (runSub_scanInv cid st sid text.toList.length text.toList
        ⟨db, [], []⟩ ⟨by simp, by simp⟩).1
  · decide

set_option maxRecDepth 10000 in
/-- C9: stub creation inside `process_shortcodes` is flushed, not committed:
processing never changes the committed rows or the stored mention rows, and
rolling back the enclosing transaction after processing restores the
committed state untouched (discarding every pending row, stubs included,
together with the rest of the edit); yet a freshly created stub carries its
assigned id (`db.nextId`) immediately and is already visible to queries in
the same transaction. -/
theorem claim_C9_flush_not_commit :
    (∀ (text : String) (cid : Nat) (st : String) (sid : Nat) (db : DB),
        (process_shortcodes text cid st sid db).2.2.committed = db.committed
      ∧ (process_shortcodes text cid st sid db).2.2.mentions = db.mentions
      ∧ DB.rollback (process_shortcodes text cid st sid db).2.2
          = { committed := db.committed, pending := [],
              nextId := (process_shortcodes text cid st sid db).2.2.nextId,
              mentions := db.mentions })
    ∧ (∀ (k nm : String) (cid : Nat) (db : DB) (r : Row) (dbo : DB),
        find_or_create_entity k nm cid db = (some r, true, dbo) →
          r.id = db.nextId ∧ r ∈ dbo.rows) := by
  constructor
  · intro text cid st sid db
    unfold process_shortcodes
    split
    · exact ⟨rfl, rfl, rfl⟩
    · have h := runSub_db_inv cid st sid text.toList.length text.toList ⟨db, [], []⟩
      refine ⟨h.1, h.2, ?_⟩
      show DB.rollback (runSub cid st sid text.toList.length text.toList ⟨db, [], []⟩).2.db = _
      unfold DB.rollback
      rw [h.1, h.2]
      rfl
  · intro k nm cid db r dbo h
    unfold find_or_create_entity at h
    split at h
    · exact absurd h (by simp)
    · split at h
      · exact absurd h (by simp)
      · split at h
        · exact absurd h (by simp)
        · simp only [Prod.mk.injEq, Option.some.injEq] at h
          obtain ⟨hr, -, hdb⟩ := h
          constructor
          · rw [← hr]
          · rw [← hdb, ← hr]
            show _ ∈ db.committed ++ (db.pending ++ [_])
            simp

set_option maxRecDepth 10000 in
/-- Witness for C9: creating the stub `Bob` in an empty database with id
sequence at 5 assigns it id 5 and makes it visible at once. -/
theorem claim_C9_flush_not_commit_witness :
    (⟨"NPC", 5, 1, "Bob", none⟩ : Row).id = (⟨[], [], 5, []⟩ : DB).nextId
    ∧ (⟨"NPC", 5, 1, "Bob", none⟩ : Row)
        ∈ (⟨[], [⟨"NPC", 5, 1, "Bob", none⟩], 6, []⟩ : DB).rows :=
  claim_C9_flush_not_commit.2 "npc" "Bob" 1 ⟨[], [], 5, []⟩ ⟨"NPC", 5, 1, "Bob", none⟩
    ⟨[], [⟨"NPC", 5, 1, "Bob", none⟩], 6, []⟩ (by decide)

theorem clear_mentions_filter (st : String) (sid : Nat) (db : DB) :
    (clear_mentions st sid db).mentions.filter
      (fun m => m.sourceType == st && m.sourceId == sid) = [] := by
  show (db.mentions.filter _).filter _ = []
  rw [List.filter_eq_nil_iff]
  intro m hm
  have h := List.of_mem_filter hm
  simp only [Bool.not_eq_true'] at h
  simp [h]

/-- C6: after `clear_mentions` for a source, processing a text with no
markers leaves zero mention edges for that source — the processed result
returns no edges and the processed text and session state unchanged, the
stored edges for the source (after the caller adds the returned empty list)
are empty, and `resolve_mentions_for_source` returns the empty list;
moreover `process_shortcodes` by itself never deletes stored mention rows,
for any text and database. -/
theorem claim_C6_clear_then_process (db : DB) (cid : Nat) (st : String) (sid : Nat)
    (text : String) (h : noMarker text.toList = true) :
    process_shortcodes text cid st sid (clear_mentions st sid db)
        = (text, [], clear_mentions st sid db)
    ∧ (addMentions (process_shortcodes text cid st sid (clear_mentions st sid db)).2.2
          (process_shortcodes text cid st sid (clear_mentions st sid db)).2.1).mentions.filter
        (fun m => m.sourceType == st && m.sourceId == sid) = []
    ∧ resolve_mentions_for_source st sid
        (addMentions (process_shortcodes text cid st sid (clear_mentions st sid db)).2.2
          (process_shortcodes text cid st sid (clear_mentions st sid db)).2.1) = []
    ∧ ∀ (t : String) (db' : DB),
        (process_shortcodes t cid st sid db').2.2.mentions = db'.mentions := by
  have ha : process_shortcodes text cid st sid (clear_mentions st sid db)
      = (text, [], clear_mentions st sid db) := by
    unfold process_shortcodes
    split
    · rfl
    · rw [scan_noMarker cid st sid text.toList ⟨clear_mentions st sid db, [], []⟩ h]
      rfl
  refine ⟨ha, ?_, ?_, ?_⟩
  · rw [ha]
    show ((clear_mentions st sid db).mentions ++ []).filter _ = []
    rw [List.append_nil]
    exact clear_mentions_filter st sid db
  · rw [ha]
    unfold resolve_mentions_for_source addMentions
    dsimp only
    rw [List.append_nil, clear_mentions_filter st sid db]
    rfl
  · intro t db'
    unfold process_shortcodes
    split
    · rfl
    · exact (runSub_db_inv cid st sid t.toList.length t.toList ⟨db', [], []⟩).2

/-- A prior mention store used to witness C6: two stored edges for the
`('npc', 3)` source and one for another source. -/
def dbC6 : DB :=
  ⟨[⟨"Location", 9, 1, "Town", none⟩], [], 10,
   [⟨1, "npc", 3, "loc", 9⟩, ⟨1, "npc", 3, "item", 4⟩, ⟨1, "quest", 8, "loc", 9⟩]⟩

set_option maxRecDepth 10000 in
/-- Witness for C6: clearing the `('npc', 3)` source and processing the
marker-free text `"plain text"` leaves no edges for that source. -/
theorem claim_C6_clear_then_process_witness :
    process_shortcodes "plain text" 1 "npc" 3 (clear_mentions "npc" 3 dbC6)
        = ("plain text", [], clear_mentions "npc" 3 dbC6)
    ∧ (addMentions (process_shortcodes "plain text" 1 "npc" 3 (clear_mentions "npc" 3 dbC6)).2.2
          (process_shortcodes "plain text" 1 "npc" 3 (clear_mentions "npc" 3 dbC6)).2.1).mentions.filter
        (fun m => m.sourceType == "npc" && m.sourceId == 3) = []
    ∧ resolve_mentions_for_source "npc" 3
        (addMentions (process_shortcodes "plain text" 1 "npc" 3 (clear_mentions "npc" 3 dbC6)).2.2
          (process_shortcodes "plain text" 1 "npc" 3 (clear_mentions "npc" 3 dbC6)).2.1) = []
    ∧ ∀ (t : String) (db' : DB),
        (process_shortcodes t 1 "npc" 3 db').2.2.mentions = db'.mentions :=
  claim_C6_clear_then_process dbC6 1 "npc" 3 "plain text" (by decide)

theorem resolveSourceLoop_mem (db : DB) :
    ∀ (ms : List Mention) (m : Mention), m ∈ ms →
      ∀ (cfg : TypeCfg) (ent : Row), typeConfig? m.targetType = some cfg →
        getById db cfg.model m.targetId = some ent →
        ({ type := m.targetType, id := m.targetId, label := ent.name,
           typeLabel := cfg.label,
           url := entity_url m.targetType m.targetId } : LinkedEntry)
          ∈ resolveSourceLoop db ms := by
  intro ms
  induction ms with
  | nil => intro m hm; exact absurd hm (by simp)
  | cons a rest ih =>
    intro m hm cfg ent hcfg hent
    rcases List.mem_cons.mp hm with rfl | hm'
    · unfold resolveSourceLoop
      simp only [hcfg, hent]
      exact List.mem_cons_self _ _
    · unfold resolveSourceLoop
      cases ha : typeConfig? a.targetType with
      | none =>
        simp only [ha]
        exact ih m hm' cfg ent hcfg hent
      | some acfg =>
        simp only [ha]
        cases hae : getById db acfg.model a.targetId with
        | none =>
          simp only [hae]
          exact ih m hm' cfg ent hcfg hent
        | some aent =>
          simp only [hae]
          exact List.mem_cons_of_mem _ (ih m hm' cfg ent hcfg hent)

theorem resolveSourceLoop_inv (db : DB) :
    ∀ (ms : List Mention) (e : LinkedEntry), e ∈ resolveSourceLoop db ms →
      ∃ m ∈ ms, ∃ (cfg : TypeCfg) (ent : Row),
        typeConfig? m.targetType = some cfg
        ∧ getById db cfg.model m.targetId = some ent
        ∧ e = { type := m.targetType, id := m.targetId, label := ent.name,
                typeLabel := cfg.label,
                url := entity_url m.targetType m.targetId } := by
  intro ms
  induction ms with
  | nil => intro e he; exact absurd he (by simp [resolveSourceLoop])
  | cons a rest ih =>
    intro e he
    unfold resolveSourceLoop at he
    cases ha : typeConfig? a.targetType with
    | none =>
      simp only [ha] at he
      obtain ⟨m, hm, r⟩ := ih e he
      exact ⟨m, List.mem_cons_of_mem _ hm, r⟩
    | some acfg =>
      simp only [ha] at he
      cases hae : getById db acfg.model a.targetId with
      | none =>
        simp only [hae] at he
        obtain ⟨m, hm, r⟩ := ih e he
        exact ⟨m, List.mem_cons_of_mem _ hm, r⟩
      | some aent =>
        simp only [hae] at he
        rcases List.mem_cons.mp he with rfl | he'
        · exact ⟨a, List.mem_cons_self _ _, acfg, aent, ha, hae, rfl⟩
        · obtain ⟨m, hm, r⟩ := ih e he'
          exact ⟨m, List.mem_cons_of_mem _ hm, r⟩

theorem resolveTargetLoop_mem (db : DB) :
    ∀ (ms : List Mention) (m : Mention), m ∈ ms →
      ∀ (cfg : TypeCfg) (ent : Row), typeConfig? m.sourceType = some cfg →
        getById db cfg.model m.sourceId = some ent →
        ({ type := m.sourceType, id := m.sourceId,
           label := cfg.label ++ ": " ++ ent.name,
           url := entity_url m.sourceType m.sourceId } : RefEntry)
          ∈ resolveTargetLoop db ms := by
  intro ms
  induction ms with
  | nil => intro m hm; exact absurd hm (by simp)
  | cons a rest ih =>
    intro m hm cfg ent hcfg hent
    rcases List.mem_cons.mp hm with rfl | hm'
    · unfold resolveTargetLoop
      simp only [hcfg, hent]
      exact List.mem_cons_self _ _
    · unfold resolveTargetLoop
      cases ha : typeConfig? a.sourceType with
      | none =>
        simp only [ha]
        exact ih m hm' cfg ent hcfg hent
      | some acfg =>
        simp only [ha]
        cases hae : getById db acfg.model a.sourceId with
        | none =>
          simp only [hae]
          exact ih m hm' cfg ent hcfg hent
        | some aent =>
          simp only [hae]
          exact List.mem_cons_of_mem _ (ih m hm' cfg ent hcfg hent)

theorem resolveTargetLoop_inv (db : DB) :
    ∀ (ms : List Mention) (e : RefEntry), e ∈ resolveTargetLoop db ms →
      ∃ m ∈ ms, ∃ (cfg : TypeCfg) (ent : Row),
        typeConfig? m.sourceType = some cfg
        ∧ getById db cfg.model m.sourceId = some ent
        ∧ e = { type := m.sourceType, id := m.sourceId,
                label := cfg.label ++ ": " ++ ent.name,
                url := entity_url m.sourceType m.sourceId } := by
  intro ms
  induction ms with
  | nil => intro e he; exact absurd he (by simp [resolveTargetLoop])
  | cons a rest ih =>
    intro e he
    unfold resolveTargetLoop at he
    cases ha : typeConfig? a.sourceType with
    | none =>
      simp only [ha] at he
      obtain ⟨m, hm, r⟩ := ih e he
      exact ⟨m, List.mem_cons_of_mem _ hm, r⟩
    | some acfg =>
      simp only [ha] at he
      cases hae : getById db acfg.model a.sourceId with
      | none =>
        simp only [hae] at he
        obtain ⟨m, hm, r⟩ := ih e he
        exact ⟨m, List.mem_cons_of_mem _ hm, r⟩
      | some aent =>
        simp only [hae] at he
        rcases List.mem_cons.mp he with rfl | he'
        · exact ⟨a, List.mem_cons_self _ _, acfg, aent, ha, hae, rfl⟩
        · obtain ⟨m, hm, r⟩ := ih e he'
          exact ⟨m, List.mem_cons_of_mem _ hm, r⟩

/-- C7: dangling tolerance of both query directions.  For any stored mention
edge: in `resolve_mentions_for_source` (the spec's `mentions_referenced_by`),
if the edge's target row no longer exists the edge contributes no result
entry, while if the target row exists its entry (with the live display
label) is in the result; symmetrically in `resolve_mentions_for_target`
(`mentions_referencing`) for the edge's source row.  Both functions are
total — missing rows are skipped, never an error. -/
theorem claim_C7_dangling_skipped (db : DB) (st : String) (sid : Nat)
    (tk : String) (tid : Nat) (m : Mention) (hm : m ∈ db.mentions) :
    (m.sourceType = st → m.sourceId = sid →
      ∀ cfg, typeConfig? m.targetType = some cfg →
        (getById db cfg.model m.targetId = none →
          ∀ e ∈ resolve_mentions_for_source st sid db,
            ¬(e.type = m.targetType ∧ e.id = m.targetId))
        ∧ ∀ ent, getById db cfg.model m.targetId = some ent →
            ({ type := m.targetType, id := m.targetId, label := ent.name,
               typeLabel := cfg.label,
               url := entity_url m.targetType m.targetId } : LinkedEntry)
              ∈ resolve_mentions_for_source st sid db)
    ∧ (m.targetType = tk → m.targetId = tid →
      ∀ cfg, typeConfig? m.sourceType = some cfg →
        (getById db cfg.model m.sourceId = none →
          ∀ e ∈ resolve_mentions_for_target tk tid db,
            ¬(e.type = m.sourceType ∧ e.id = m.sourceId))
        ∧ ∀ ent, getById db cfg.model m.sourceId = some ent →
            ({ type := m.sourceType, id := m.sourceId,
               label := cfg.label ++ ": " ++ ent.name,
               url := entity_url m.sourceType m.sourceId } : RefEntry)
              ∈ resolve_mentions_for_target tk tid db) := by
  constructor
  · intro h1 h2 cfg hcfg
    constructor
    · intro hnone e he hc
      obtain ⟨m', hm', cfg', ent', hcfg', hent', rfl⟩ :=
        resolveSourceLoop_inv db _ e he
      obtain ⟨hct, hci⟩ := hc
      simp only at hct hci
      rw [hct] at hcfg'
      rw [hcfg] at hcfg'
      obtain rfl : cfg = cfg' := by injection hcfg'
      rw [hci] at hent'
      exact absurd (hnone.symm.trans hent') (by simp)
    · intro ent hent
      exact resolveSourceLoop_mem db _ m
        (List.mem_filter.mpr ⟨hm, by simp [h1, h2]⟩) cfg ent hcfg hent
  · intro h1 h2 cfg hcfg
    constructor
    · intro hnone e he hc
      obtain ⟨m', hm', cfg', ent', hcfg', hent', rfl⟩ :=
        resolveTargetLoop_inv db _ e he
      obtain ⟨hct, hci⟩ := hc
      simp only at hct hci
      rw [hct] at hcfg'
      rw [hcfg] at hcfg'
      obtain rfl : cfg = cfg' := by injection hcfg'
      rw [hci] at hent'
      exact absurd (hnone.symm.trans hent') (by simp)
    · intro ent hent
      exact resolveTargetLoop_mem db _ m
        (List.mem_filter.mpr ⟨hm, by simp [h1, h2]⟩) cfg ent hcfg hent

/-- Database used to witness C7: the `('npc', 3)` source has one edge to an
existing location (`Town`, id 9) and one dangling edge to a deleted item. -/
def dbC7 : DB :=
  ⟨[⟨"Location", 9, 1, "Town", none⟩], [], 10,
   [⟨1, "npc", 3, "loc", 9⟩, ⟨1, "npc", 3, "item", 4⟩]⟩

set_option maxRecDepth 10000 in
/-- Witness for C7: the live edge appears in `resolve_mentions_for_source`
and the dangling edge is omitted. -/
theorem claim_C7_dangling_skipped_witness :
    ({ type := "loc", id := 9, label := "Town", typeLabel := "Location",
       url := entity_url "loc" 9 } : LinkedEntry)
        ∈ resolve_mentions_for_source "npc" 3 dbC7
    ∧ ∀ e ∈ resolve_mentions_for_source "npc" 3 dbC7,
        ¬(e.type = "item" ∧ e.id = 4) := by
  constructor
  · exact ((claim_C7_dangling_skipped dbC7 "npc" 3 "loc" 9
        ⟨1, "npc", 3, "loc", 9⟩ (by decide)).1 rfl rfl
        ⟨"Location", "Location", "/locations"⟩ (by decide)).2
        ⟨"Location", 9, 1, "Town", none⟩ (by decide)
  · exact ((claim_C7_dangling_skipped dbC7 "npc" 3 "loc" 9
        ⟨1, "npc", 3, "item", 4⟩ (by decide)).1 rfl rfl
        ⟨"Item", "Item", "/items"⟩ (by decide)).1 (by decide)

/-- Database refuting C5 as stated: a `Session` row (id 1) exists, its edit
handler recorded a mention edge with source type `"session"` targeting NPC 5,
yet the NPC's "Referenced by" query returns nothing. -/
def dbC5 : DB :=
  ⟨[⟨"Session", 1, 1, "Session One", none⟩, ⟨"NPC", 5, 1, "Bob", none⟩], [], 10,
   [⟨1, "session", 1, "npc", 5⟩]⟩

set_option maxRecDepth 10000 in
/-- Counterexample to C5 as stated: a stored mention edge whose source (a
session) still exists is nonetheless absent from
`resolve_mentions_for_target`, because `"session"` is not a `TYPE_CONFIG`
key — the result is empty even though the edge and its live source row are
both present. -/
theorem claim_C5_counterexample :
    sourceModel "session" = some "Session"
    ∧ (∃ r ∈ dbC5.rows, r.model = "Session" ∧ r.id = 1)
    ∧ (⟨1, "session", 1, "npc", 5⟩ : Mention) ∈ dbC5.mentions
    ∧ resolve_mentions_for_target "npc" 5 dbC5 = [] := by decide

/-- C5 (amended): `resolve_mentions_for_target` returns an entry for every
stored edge targeting the given entity whose source kind is one of the seven
shortcode type codes and whose source row still exists, resolved to a live
display label; edges whose source kind is outside `TYPE_CONFIG` (such as the
`"session"` and `"bestiary"` edges written by the session and bestiary
editors) are silently omitted even when their source rows exist. -/
theorem claim_C5_amended_referencing (db : DB) (tk : String) (tid : Nat)
    (m : Mention) (hm : m ∈ db.mentions) (h1 : m.targetType = tk)
    (h2 : m.targetId = tid) :
    (∀ cfg, typeConfig? m.sourceType = some cfg →
       ∀ ent, getById db cfg.model m.sourceId = some ent →
         ({ type := m.sourceType, id := m.sourceId,
            label := cfg.label ++ ": " ++ ent.name,
            url := entity_url m.sourceType m.sourceId } : RefEntry)
           ∈ resolve_mentions_for_target tk tid db)
    ∧ (typeConfig? m.sourceType = none →
       ∀ e ∈ resolve_mentions_for_target tk tid db,
         ¬(e.type = m.sourceType ∧ e.id = m.sourceId)) := by
  constructor
  · intro cfg hcfg ent hent
    exact resolveTargetLoop_mem db _ m
      (List.mem_filter.mpr ⟨hm, by simp [h1, h2]⟩) cfg ent hcfg hent
  · intro hnone e he hc
    obtain ⟨m', hm', cfg', ent', hcfg', hent', rfl⟩ :=
      resolveTargetLoop_inv db _ e he
    obtain ⟨hct, hci⟩ := hc
    simp only at hct hci
    rw [hct] at hcfg'
    rw [hnone] at hcfg'
    exact absurd hcfg' (by simp)

/-- Database used to witness the amended C5: location 9 is referenced by an
existing NPC (a config source kind) and by a session (a non-config kind). -/
def dbC5w : DB :=
  ⟨[⟨"NPC", 2, 1, "Ann", none⟩, ⟨"Location", 9, 1, "Town", none⟩], [], 10,
   [⟨1, "npc", 2, "loc", 9⟩, ⟨1, "session", 7, "loc", 9⟩]⟩

set_option maxRecDepth 10000 in
/-- Witness for the amended C5: the NPC-sourced edge yields its entry and
the session-sourced edge yields none. -/
theorem claim_C5_amended_referencing_witness :
    ({ type := "npc", id := 2, label := "NPC: Ann",
       url := entity_url "npc" 2 } : RefEntry)
        ∈ resolve_mentions_for_target "loc" 9 dbC5w
    ∧ ∀ e ∈ resolve_mentions_for_target "loc" 9 dbC5w,
        ¬(e.type = "session" ∧ e.id = 7) := by
  constructor
  · exact (claim_C5_amended_referencing dbC5w "loc" 9 ⟨1, "npc", 2, "loc", 9⟩
      (by decide) rfl rfl).1 ⟨"NPC", "NPC", "/npcs"⟩ (by decide)
      ⟨"NPC", 2, 1, "Ann", none⟩ (by decide)
  · exact (claim_C5_amended_referencing dbC5w "loc" 9 ⟨1, "session", 7, "loc", 9⟩
      (by decide) rfl rfl).2 (by decide)

/-- The `pc` branch of `_find_or_create_entity` is pure lookup: it returns
the query result as is, never creates, and leaves the session untouched. -/
theorem pc_find_or_create (name : String) (cid : Nat) (db : DB) :
    find_or_create_entity "pc" name cid db
      = (lookupFirst db "PlayerCharacter" cid name, false, db) := rfl

/-- One scan step over a `#pc[...]` marker whose trimmed name has no player
character in the campaign: the literal marker text is emitted unchanged, no
mention is recorded, no entity is created, and the scan continues on the
rest of the input from the same state. -/
theorem pc_runSub_step (cid : Nat) (st : String) (sid : Nat) (s : ScanState)
    (nm : List Char) (rest : List Char) (f : Nat) (hne : nm ≠ []) (hnb : ']' ∉ nm)
    (hmiss : lookupFirst s.db "PlayerCharacter" cid (String.mk (stripChars nm)) = none) :
    runSub cid st sid (f + 1) ('#' :: 'p' :: 'c' :: '[' :: (nm ++ ']' :: rest)) s
      = (('#' :: 'p' :: 'c' :: '[' :: (nm ++ [']'])) ++ (runSub cid st sid f rest s).1,
         (runSub cid st sid f rest s).2) := by
  have hp := tryParse_marker (k := "pc") (by decide) hne hnb rest
  rw [show ("pc".toList) = ['p', 'c'] from rfl] at hp
  simp only [List.cons_append, List.nil_append] at hp
  have hfc : find_or_create_entity "pc" (String.mk (stripChars nm)) cid s.db
      = (none, false, s.db) := by
    rw [pc_find_or_create, hmiss]
  have hrm : replace_match cid st sid "pc" nm s
      = ("#" ++ "pc" ++ "[" ++ String.mk nm ++ "]", s) := by
    simp only [replace_match, hfc]
  conv_lhs => rw [runSub]
  simp only [hp, hrm]
  rfl

/-- C3: player-character soft miss.  `_find_or_create_entity` never creates
a player character (the `pc` branch returns the bare lookup result with the
session untouched); during the scan, every `#pc[...]` marker whose trimmed
name has no matching player character in the campaign is left as its literal
text, contributes no mention edge, touches no state, and the scan continues
(stated for the marker at any scan position, i.e. any state and remaining
input); in particular processing a text that is exactly such a marker
returns the text unchanged with no mentions and the database unchanged. -/
theorem claim_C3_pc_soft_miss :
    (∀ (name : String) (cid : Nat) (db : DB),
        find_or_create_entity "pc" name cid db
          = (lookupFirst db "PlayerCharacter" cid name, false, db))
    ∧ (∀ (cid : Nat) (st : String) (sid : Nat) (s : ScanState) (nm rest : List Char)
         (f : Nat), nm ≠ [] → ']' ∉ nm →
         lookupFirst s.db "PlayerCharacter" cid (String.mk (stripChars nm)) = none →
         runSub cid st sid (f + 1) ('#' :: 'p' :: 'c' :: '[' :: (nm ++ ']' :: rest)) s
           = (('#' :: 'p' :: 'c' :: '[' :: (nm ++ [']'])) ++ (runSub cid st sid f rest s).1,
              (runSub cid st sid f rest s).2))
    ∧ (∀ (name : String) (cid : Nat) (st : String) (sid : Nat) (db : DB),
         name.toList ≠ [] → ']' ∉ name.toList →
         lookupFirst db "PlayerCharacter" cid (pyStrip name) = none →
         process_shortcodes ("#pc[" ++ name ++ "]") cid st sid db
           = ("#pc[" ++ name ++ "]", [], db)) := by
  refine ⟨pc_find_or_create, pc_runSub_step, ?_⟩
  intro name cid st sid db hne hnb hmiss
  have hempty : ("#pc[" ++ name ++ "]").isEmpty = false := by
    apply isEmpty_false_of_ne_nil
    show ('#' :: 'p' :: 'c' :: '[' :: (name.data ++ [']'])) ≠ []
    simp
  unfold process_shortcodes
  split
  · rename_i h'
    rw [hempty] at h'
  · rw [show scan cid st sid ("#pc[" ++ name ++ "]").toList (⟨db, [], []⟩ : ScanState)
        = runSub cid st sid (('p' :: 'c' :: '[' :: (name.toList ++ [']'])).length + 1)
            ('#' :: 'p' :: 'c' :: '[' :: (name.toList ++ ']' :: [])) ⟨db, [], []⟩ from rfl]
    rw [pc_runSub_step cid st sid ⟨db, [], []⟩ name.toList []
        ('p' :: 'c' :: '[' :: (name.toList ++ [']'])).length hne hnb hmiss]
    rw [runSub_nil]
    rw [List.append_nil]
    rfl

set_option maxRecDepth 10000 in
/-- Witness for C3: `#pc[NoSuchHero]` over an empty database passes through
unchanged with no mention and no state change. -/
theorem claim_C3_pc_soft_miss_witness :
    process_shortcodes "#pc[NoSuchHero]" 1 "session" 2 ⟨[], [], 0, []⟩
      = ("#pc[NoSuchHero]", [], ⟨[], [], 0, []⟩) :=
  claim_C3_pc_soft_miss.2.2 "NoSuchHero" 1 "session" 2 ⟨[], [], 0, []⟩
    (by decide) (by decide) (by decide)

/-- One scan step over an `#npc[...]` marker whose trimmed name has no
ILIKE match among the campaign's NPCs and whose key is not yet seen: a stub
row is created (flushed with id `s.db.nextId`), one mention is appended, the
link to the stub is emitted, and the scan continues after the marker. -/
theorem npc_runSub_step_create (cid : Nat) (st : String) (sid : Nat)
    (s : ScanState) (nm rest : List Char) (f : Nat)
    (hne : nm ≠ []) (hnb : ']' ∉ nm)
    (hmiss : lookupFirst s.db "NPC" cid (String.mk (stripChars nm)) = none)
    (hseen : ("npc", s.db.nextId) ∉ s.seen) :
    runSub cid st sid (f + 1) ('#' :: 'n' :: 'p' :: 'c' :: '[' :: (nm ++ ']' :: rest)) s
      = ((renderLink "npc" ⟨"NPC", s.db.nextId, cid, String.mk (stripChars nm), none⟩).toList
           ++ (runSub cid st sid f rest
                ⟨{ s.db with
                     pending := s.db.pending
                       ++ [⟨"NPC", s.db.nextId, cid, String.mk (stripChars nm), none⟩],
                     nextId := s.db.nextId + 1 },
                  s.seen ++ [("npc", s.db.nextId)],
                  s.mentions ++ [⟨cid, st, sid, "npc", s.db.nextId⟩]⟩).1,
         (runSub cid st sid f rest
            ⟨{ s.db with
                 pending := s.db.pending
                   ++ [⟨"NPC", s.db.nextId, cid, String.mk (stripChars nm), none⟩],
                 nextId := s.db.nextId + 1 },
              s.seen ++ [("npc", s.db.nextId)],
              s.mentions ++ [⟨cid, st, sid, "npc", s.db.nextId⟩]⟩).2) := by
  have hp := tryParse_marker (k := "npc") (by decide) hne hnb rest
  rw [show ("npc".toList) = ['n', 'p', 'c'] from rfl] at hp
  simp only [List.cons_append, List.nil_append] at hp
  have hunf : find_or_create_entity "npc" (String.mk (stripChars nm)) cid s.db
      = match lookupFirst s.db "NPC" cid (String.mk (stripChars nm)) with
        | some e => (some e, false, s.db)
        | none =>
          (some ⟨"NPC", s.db.nextId, cid, String.mk (stripChars nm), none⟩, true,
           { s.db with
               pending := s.db.pending
                 ++ [⟨"NPC", s.db.nextId, cid, String.mk (stripChars nm), none⟩],
               nextId := s.db.nextId + 1 }) := rfl
  have hfc : find_or_create_entity "npc" (String.mk (stripChars nm)) cid s.db
      = (some ⟨"NPC", s.db.nextId, cid, String.mk (stripChars nm), none⟩, true,
         { s.db with
             pending := s.db.pending
               ++ [⟨"NPC", s.db.nextId, cid, String.mk (stripChars nm), none⟩],
             nextId := s.db.nextId + 1 }) := by
    rw [hunf, hmiss]
  have hrm : replace_match cid st sid "npc" nm s
      = (renderLink "npc" ⟨"NPC", s.db.nextId, cid, String.mk (stripChars nm), none⟩,
         ⟨{ s.db with
              pending := s.db.pending
                ++ [⟨"NPC", s.db.nextId, cid, String.mk (stripChars nm), none⟩],
              nextId := s.db.nextId + 1 },
           s.seen ++ [("npc", s.db.nextId)],
           s.mentions ++ [⟨cid, st, sid, "npc", s.db.nextId⟩]⟩) := by
    simp only [replace_match, hfc]
    rw [if_neg hseen]
  conv_lhs => rw [runSub]
  simp only [hp, hrm]

set_option maxRecDepth 10000 in
/-- C10: a whitespace-only bracketed name is matched by the pattern (the
name group is a non-empty run of non-`]` characters), trims to the empty
string, and — when no NPC of the campaign ILIKE-matches the empty pattern —
`process_shortcodes` creates and links a stub NPC whose display name is the
empty string; no guard rejects the empty trimmed name. -/
theorem claim_C10_whitespace_name (db : DB) (cid : Nat) (st : String) (sid : Nat)
    (hmiss : lookupFirst db "NPC" cid "" = none) :
    tryParse "#npc[   ]".toList = some ("npc", [' ', ' ', ' '], [])
    ∧ pyStrip "   " = ""
    ∧ process_shortcodes "#npc[   ]" cid st sid db
      = (renderLink "npc" ⟨"NPC", db.nextId, cid, "", none⟩,
         [⟨cid, st, sid, "npc", db.nextId⟩],
         { db with pending := db.pending ++ [⟨"NPC", db.nextId, cid, "", none⟩],
                   nextId := db.nextId + 1 }) := by
  refine ⟨by decide, by decide, ?_⟩
  unfold process_shortcodes
  split
  · rename_i h'
    rw [show ("#npc[   ]").isEmpty = false from rfl] at h'
    exact absurd h' (by simp)
  · rw [show scan cid st sid ("#npc[   ]").toList (⟨db, [], []⟩ : ScanState)
        = runSub cid st sid (8 + 1)
            ('#' :: 'n' :: 'p' :: 'c' :: '[' :: ([' ', ' ', ' '] ++ ']' :: []))
            ⟨db, [], []⟩ from rfl]
    rw [npc_runSub_step_create cid st sid ⟨db, [], []⟩ [' ', ' ', ' '] [] 8
        (by decide) (by decide) hmiss (by simp)]
    rw [runSub_nil]
    rw [List.append_nil]
    rfl

set_option maxRecDepth 10000 in
/-- Witness for C10: `#npc[   ]` over an empty database creates the
empty-named stub with id 0 and links it. -/
theorem claim_C10_whitespace_name_witness :
    process_shortcodes "#npc[   ]" 1 "session" 2 ⟨[], [], 0, []⟩
      = (renderLink "npc" ⟨"NPC", 0, 1, "", none⟩,
         [⟨1, "session", 2, "npc", 0⟩],
         ⟨[], [⟨"NPC", 0, 1, "", none⟩], 1, []⟩) :=
  (claim_C10_whitespace_name ⟨[], [], 0, []⟩ 1 "session" 2 (by decide)).2.2

theorem scan_cons_eq (cid : Nat) (st : String) (sid : Nat) (c : Char)
    (rest : List Char) (s : ScanState) :
    scan cid st sid (c :: rest) s
      = runSub cid st sid (rest.length + 1) (c :: rest) s := rfl

theorem scan_nonhash_cons (cid : Nat) (st : String) (sid : Nat) (c : Char)
    (hc : c ≠ '#') (rest : List Char) (s : ScanState) :
    scan cid st sid (c :: rest) s
      = (c :: (scan cid st sid rest s).1, (scan cid st sid rest s).2) :=
  scan_cons_none cid st sid s (tryParse_not_hash hc rest)

theorem str_append3 (s1 s2 s3 : String) :
    s1 ++ s2 ++ s3 = String.mk (s1.toList ++ (s2.toList ++ s3.toList)) := by
  show String.mk ((s1.toList ++ s2.toList) ++ s3.toList) = _
  rw [List.append_assoc]

/-- One scan step over an `#npc[...]` marker whose trimmed name resolves to
an existing row `e` whose key has already been seen: the link to `e` is
emitted, no state changes, and the scan continues after the marker. -/
theorem npc_runSub_step_found (cid : Nat) (st : String) (sid : Nat)
    (s : ScanState) (nm rest : List Char) (f : Nat) (e : Row)
    (hne : nm ≠ []) (hnb : ']' ∉ nm)
    (hfound : lookupFirst s.db "NPC" cid (String.mk (stripChars nm)) = some e)
    (hseen : ("npc", e.id) ∈ s.seen) :
    runSub cid st sid (f + 1) ('#' :: 'n' :: 'p' :: 'c' :: '[' :: (nm ++ ']' :: rest)) s
      = ((renderLink "npc" e).toList ++ (runSub cid st sid f rest s).1,
         (runSub cid st sid f rest s).2) := by
  have hp := tryParse_marker (k := "npc") (by decide) hne hnb rest
  rw [show ("npc".toList) = ['n', 'p', 'c'] from rfl] at hp
  simp only [List.cons_append, List.nil_append] at hp
  have hunf : find_or_create_entity "npc" (String.mk (stripChars nm)) cid s.db
      = match lookupFirst s.db "NPC" cid (String.mk (stripChars nm)) with
        | some e => (some e, false, s.db)
        | none =>
          (some ⟨"NPC", s.db.nextId, cid, String.mk (stripChars nm), none⟩, true,
           { s.db with
               pending := s.db.pending
                 ++ [⟨"NPC", s.db.nextId, cid, String.mk (stripChars nm), none⟩],
               nextId := s.db.nextId + 1 }) := rfl
  have hfc : find_or_create_entity "npc" (String.mk (stripChars nm)) cid s.db
      = (some e, false, s.db) := by
    rw [hunf, hfound]
  have hrm : replace_match cid st sid "npc" nm s = (renderLink "npc" e, s) := by
    simp only [replace_match, hfc]
    rw [if_pos hseen]
  conv_lhs => rw [runSub]
  simp only [hp, hrm]

theorem npc_scan_step_create (cid : Nat) (st : String) (sid : Nat)
    (s : ScanState) (nm rest : List Char)
    (hne : nm ≠ []) (hnb : ']' ∉ nm)
    (hmiss : lookupFirst s.db "NPC" cid (String.mk (stripChars nm)) = none)
    (hseen : ("npc", s.db.nextId) ∉ s.seen) :
    scan cid st sid ('#' :: 'n' :: 'p' :: 'c' :: '[' :: (nm ++ ']' :: rest)) s
      = ((renderLink "npc" ⟨"NPC", s.db.nextId, cid, String.mk (stripChars nm), none⟩).toList
           ++ (scan cid st sid rest
                ⟨{ s.db with
                     pending := s.db.pending
                       ++ [⟨"NPC", s.db.nextId, cid, String.mk (stripChars nm), none⟩],
                     nextId := s.db.nextId + 1 },
                  s.seen ++ [("npc", s.db.nextId)],
                  s.mentions ++ [⟨cid, st, sid, "npc", s.db.nextId⟩]⟩).1,
         (scan cid st sid rest
            ⟨{ s.db with
                 pending := s.db.pending
                   ++ [⟨"NPC", s.db.nextId, cid, String.mk (stripChars nm), none⟩],
                 nextId := s.db.nextId + 1 },
              s.seen ++ [("npc", s.db.nextId)],
              s.mentions ++ [⟨cid, st, sid, "npc", s.db.nextId⟩]⟩).2) := by
  rw [scan_cons_eq]
  rw [npc_runSub_step_create cid st sid s nm rest
      ('n' :: 'p' :: 'c' :: '[' :: (nm ++ ']' :: rest)).length hne hnb hmiss hseen]
  rw [runSub_fuel_eq cid st sid ('n' :: 'p' :: 'c' :: '[' :: (nm ++ ']' :: rest)).length
      rest.length rest _ (by simp [List.length_append]; omega) (le_refl _)]
  rfl

theorem npc_scan_step_found (cid : Nat) (st : String) (sid : Nat)
    (s : ScanState) (nm rest : List Char) (e : Row)
    (hne : nm ≠ []) (hnb : ']' ∉ nm)
    (hfound : lookupFirst s.db "NPC" cid (String.mk (stripChars nm)) = some e)
    (hseen : ("npc", e.id) ∈ s.seen) :
    scan cid st sid ('#' :: 'n' :: 'p' :: 'c' :: '[' :: (nm ++ ']' :: rest)) s
      = ((renderLink "npc" e).toList ++ (scan cid st sid rest s).1,
         (scan cid st sid rest s).2) := by
  rw [scan_cons_eq]
  rw [npc_runSub_step_found cid st sid s nm rest
      ('n' :: 'p' :: 'c' :: '[' :: (nm ++ ']' :: rest)).length e hne hnb hfound hseen]
  rw [runSub_fuel_eq cid st sid ('n' :: 'p' :: 'c' :: '[' :: (nm ++ ']' :: rest)).length
      rest.length rest _ (by simp [List.length_append]; omega) (le_refl _)]
  rfl

set_option maxRecDepth 10000 in
/-- C2: auto-creation of missing non-PC targets.  First conjunct: for every
non-PC kind with a lookup miss, `_find_or_create_entity` creates exactly the
minimal stub — the display-name field and the campaign id, with status
`"active"` exactly for quest stubs (compendium stubs get only their title,
which is the display-name field) — flushed with the next id.  Second
conjunct: processing a text consisting of `#npc[X]` twice (`X` non-empty,
bracket-free, trim-invariant, with no ILIKE match among the campaign's NPCs)
creates exactly one stub named `X`, returns exactly one mention edge to it,
and replaces both occurrences with the link to the new entity. -/
theorem claim_C2_stub_creation :
    (∀ (k : String) (cfg : TypeCfg) (name : String) (cid : Nat) (db : DB),
        typeConfig? k = some cfg → k ≠ "pc" →
        lookupFirst db cfg.model cid name = none →
        find_or_create_entity k name cid db
          = (some ⟨cfg.model, db.nextId, cid, name,
                   if k == "quest" then some "active" else none⟩, true,
             { db with
                 pending := db.pending
                   ++ [⟨cfg.model, db.nextId, cid, name,
                        if k == "quest" then some "active" else none⟩],
                 nextId := db.nextId + 1 }))
    ∧ (∀ (X : String) (cid : Nat) (st : String) (sid : Nat) (db : DB),
        X.toList ≠ [] → ']' ∉ X.toList → stripChars X.toList = X.toList →
        lookupFirst db "NPC" cid X = none →
        process_shortcodes ("#npc[" ++ X ++ "] and #npc[" ++ X ++ "]") cid st sid db
          = (renderLink "npc" ⟨"NPC", db.nextId, cid, X, none⟩ ++ " and "
               ++ renderLink "npc" ⟨"NPC", db.nextId, cid, X, none⟩,
             [⟨cid, st, sid, "npc", db.nextId⟩],
             { db with pending := db.pending ++ [⟨"NPC", db.nextId, cid, X, none⟩],
                       nextId := db.nextId + 1 })) := by
  constructor
  · intro k cfg name cid db hcfg hpc hmiss
    simp only [find_or_create_entity, hcfg]
    rw [if_neg (by simp [hpc])]
    simp only [hmiss]
  · intro X cid st sid db hne hnb htrim hmiss
    have hmiss' : lookupFirst db "NPC" cid (String.mk (stripChars X.toList)) = none := by
      rw [htrim]
      exact hmiss
    have hempty : ("#npc[" ++ X ++ "] and #npc[" ++ X ++ "]").isEmpty = false := by
      apply isEmpty_false_of_ne_nil
      show (((("#npc[".toList ++ X.toList) ++ "] and #npc[".toList) ++ X.toList)
        ++ "]".toList) ≠ []
      simp
    have hlist : ("#npc[" ++ X ++ "] and #npc[" ++ X ++ "]").toList
        = '#' :: 'n' :: 'p' :: 'c' :: '['
            :: (X.toList ++ ']' :: (' ' :: 'a' :: 'n' :: 'd' :: ' '
                :: '#' :: 'n' :: 'p' :: 'c' :: '[' :: (X.toList ++ [']']))) := by
      show (((("#npc[".toList ++ X.toList) ++ "] and #npc[".toList) ++ X.toList)
        ++ "]".toList) = _
      simp [List.append_assoc]
    unfold process_shortcodes
    split
    · rename_i h'
      rw [hempty] at h'
      exact absurd h' (by simp)
    · rw [hlist]
      rw [npc_scan_step_create cid st sid ⟨db, [], []⟩ X.toList
          (' ' :: 'a' :: 'n' :: 'd' :: ' ' :: '#' :: 'n' :: 'p' :: 'c' :: '['
            :: (X.toList ++ [']'])) hne hnb hmiss' (by simp)]
      rw [htrim]
      rw [show String.mk X.toList = X from rfl]
      rw [scan_nonhash_cons cid st sid ' ' (by decide),
          scan_nonhash_cons cid st sid 'a' (by decide),
          scan_nonhash_cons cid st sid 'n' (by decide),
          scan_nonhash_cons cid st sid 'd' (by decide),
          scan_nonhash_cons cid st sid ' ' (by decide)]
      have hfound : lookupFirst
          { db with pending := db.pending ++ [⟨"NPC", db.nextId, cid, X, none⟩],
                    nextId := db.nextId + 1 } "NPC" cid
          (String.mk (stripChars X.toList)) = some ⟨"NPC", db.nextId, cid, X, none⟩ := by
        rw [htrim]
        rw [show String.mk X.toList = X from rfl]
        unfold lookupFirst
        show ((db.committed ++ (db.pending ++ [(⟨"NPC", db.nextId, cid, X, none⟩ : Row)])).find?
          (fun r : Row => r.model == "NPC" && r.campaignId == cid && ilike X r.name)) = _
        rw [← List.append_assoc, List.find?_append]
        rw [show (db.committed ++ db.pending).find?
            (fun r : Row => r.model == "NPC" && r.campaignId == cid && ilike X r.name)
            = none from hmiss]
        simp [ilike_self]
      rw [npc_scan_step_found cid st sid _ X.toList [] ⟨"NPC", db.nextId, cid, X, none⟩
          hne hnb hfound (by simp)]
      rw [scan_nil]
      dsimp only
      rw [List.append_nil]
      rw [str_append3]
      rfl

set_option maxRecDepth 10000 in
/-- Witness for C2: `#npc[Bob] and #npc[Bob]` over an empty database creates
one stub NPC `Bob`, returns one edge, and links both occurrences. -/
theorem claim_C2_stub_creation_witness :
    process_shortcodes "#npc[Bob] and #npc[Bob]" 1 "session" 2 ⟨[], [], 0, []⟩
      = (renderLink "npc" ⟨"NPC", 0, 1, "Bob", none⟩ ++ " and "
           ++ renderLink "npc" ⟨"NPC", 0, 1, "Bob", none⟩,
         [⟨1, "session", 2, "npc", 0⟩],
         ⟨[], [⟨"NPC", 0, 1, "Bob", none⟩], 1, []⟩) :=
  claim_C2_stub_creation.2 "Bob" 1 "session" 2 ⟨[], [], 0, []⟩
    (by decide) (by decide) (by decide) (by decide)

/-- One scan step over a `#k[...]` marker (any of the seven codes) whose
resolution returns an existing entity `e` without touching the session, when
`(k, e.id)` is not yet seen: the link to `e` is emitted, the key and one
mention are appended, and the scan continues after the marker. -/
theorem scan_step_resolved (cid : Nat) (st : String) (sid : Nat) (s : ScanState)
    (k : String) (nm rest : List Char) (e : Row)
    (hk : k ∈ codeList) (hne : nm ≠ []) (hnb : ']' ∉ nm)
    (hfc : find_or_create_entity k (String.mk (stripChars nm)) cid s.db
        = (some e, false, s.db))
    (hnotseen : (k, e.id) ∉ s.seen) :
    scan cid st sid ('#' :: (k.toList ++ '[' :: (nm ++ ']' :: rest))) s
      = ((renderLink k e).toList
           ++ (scan cid st sid rest
                ⟨s.db, s.seen ++ [(k, e.id)],
                 s.mentions ++ [⟨cid, st, sid, k, e.id⟩]⟩).1,
         (scan cid st sid rest
            ⟨s.db, s.seen ++ [(k, e.id)],
             s.mentions ++ [⟨cid, st, sid, k, e.id⟩]⟩).2) := by
  have hp := tryParse_marker hk hne hnb rest
  have hrm : replace_match cid st sid k nm s
      = (renderLink k e,
         ⟨s.db, s.seen ++ [(k, e.id)], s.mentions ++ [⟨cid, st, sid, k, e.id⟩]⟩) := by
    simp only [replace_match, hfc]
    rw [if_neg hnotseen]
  rw [scan_cons_eq]
  conv_lhs => rw [runSub]
  simp only [hp, hrm]
  rw [runSub_fuel_eq cid st sid (k.toList ++ '[' :: (nm ++ ']' :: rest)).length
      rest.length rest _ (by simp [List.length_append]; omega) (le_refl _)]
  rfl

set_option maxRecDepth 10000 in
/-- Counterexample to C4 as stated: entity lookup is not an exact
case-insensitive match.  The campaign holds only the NPC `Alice`, and no
entity's display name equals the marker name `Al%` up to letter case; an
exact-match lookup would therefore miss and create a stub named `Al%`.
Instead the `%` in the marker name acts as a SQL LIKE wildcard: the marker
resolves to `Alice`, no entity is created, and the database is unchanged. -/
theorem claim_C4_counterexample :
    (∀ r ∈ (⟨[⟨"NPC", 1, 1, "Alice", none⟩], [], 2, []⟩ : DB).rows,
        ¬(r.name.toList.map Char.toLower = "Al%".toList.map Char.toLower))
    ∧ process_shortcodes "#npc[Al%]" 1 "session" 9
          ⟨[⟨"NPC", 1, 1, "Alice", none⟩], [], 2, []⟩
        = (renderLink "npc" ⟨"NPC", 1, 1, "Alice", none⟩,
           [⟨1, "session", 9, "npc", 1⟩],
           ⟨[⟨"NPC", 1, 1, "Alice", none⟩], [], 2, []⟩) := by decide

set_option maxRecDepth 10000 in
/-- C4 (amended): entity lookup is a case-insensitive SQL LIKE match on the
display-name field scoped to the campaign, in which `%` and `_` in the
(trimmed) marker name act as wildcards.  In particular, when an entity of
the marker's kind whose display name equals the marker name up to letter
case exists in the campaign and is the only LIKE match there, the lookup
returns it, `_find_or_create_entity` resolves to it without creating
anything, and processing the marker substitutes the link carrying the
entity's stored display name (its original casing). -/
theorem claim_C4_amended_lookup (k : String) (cfg : TypeCfg) (name : String)
    (cid : Nat) (st : String) (sid : Nat) (db : DB) (r : Row)
    (hk : k ∈ codeList) (hcfg : typeConfig? k = some cfg)
    (hr : r ∈ db.rows) (hmodel : r.model = cfg.model) (hcamp : r.campaignId = cid)
    (hci : r.name.toList.map Char.toLower = name.toList.map Char.toLower)
    (huniq : ∀ r' ∈ db.rows, r'.model = cfg.model → r'.campaignId = cid →
       ilike name r'.name = true → r' = r)
    (hne : name.toList ≠ []) (hnb : ']' ∉ name.toList)
    (htrim : stripChars name.toList = name.toList) :
    lookupFirst db cfg.model cid name = some r
    ∧ find_or_create_entity k name cid db = (some r, false, db)
    ∧ process_shortcodes ("#" ++ k ++ "[" ++ name ++ "]") cid st sid db
        = (renderLink k r, [⟨cid, st, sid, k, r.id⟩], db) := by
  have hilike : ilike name r.name = true :=
    likeMatch_of_toLower_eq name.toList r.name.toList hci.symm
  have hlook : lookupFirst db cfg.model cid name = some r := by
    unfold lookupFirst
    cases hfind : db.rows.find?
        (fun x : Row => x.model == cfg.model && x.campaignId == cid && ilike name x.name) with
    | none =>
      have := List.find?_eq_none.mp hfind r hr
      simp [hmodel, hcamp, hilike] at this
    | some r'' =>
      have hp := List.find?_some hfind
      have hmem := List.mem_of_find?_eq_some hfind
      simp only [Bool.and_eq_true, beq_iff_eq] at hp
      rw [huniq r'' hmem hp.1.1 hp.1.2 hp.2]
  have hfc : find_or_create_entity k name cid db = (some r, false, db) := by
    simp only [find_or_create_entity, hcfg]
    by_cases hpc : (k == "pc") = true
    · rw [if_pos hpc, hlook]
    · rw [if_neg hpc]
      simp only [hlook]
  refine ⟨hlook, hfc, ?_⟩
  have hmiss' : find_or_create_entity k (String.mk (stripChars name.toList)) cid db
      = (some r, false, db) := by
    rw [htrim]
    exact hfc
  have hempty : ("#" ++ k ++ "[" ++ name ++ "]").isEmpty = false := by
    apply isEmpty_false_of_ne_nil
    show (((("#".toList ++ k.toList) ++ "[".toList) ++ name.toList) ++ "]".toList) ≠ []
    simp
  have hlist : ("#" ++ k ++ "[" ++ name ++ "]").toList
      = '#' :: (k.toList ++ '[' :: (name.toList ++ ']' :: [])) := by
    show (((("#".toList ++ k.toList) ++ "[".toList) ++ name.toList) ++ "]".toList) = _
    simp [List.append_assoc]
  unfold process_shortcodes
  split
  · rename_i h'
    rw [hempty] at h'
    exact absurd h' (by simp)
  · rw [hlist]
    rw [scan_step_resolved cid st sid ⟨db, [], []⟩ k name.toList [] r hk hne hnb
        hmiss' (by simp)]
    rw [scan_nil]
    dsimp only
    rw [List.append_nil]
    rfl

/-- Database for the C4 witness: the campaign holds the NPC `Goblin King`. -/
def dbGK : DB := ⟨[⟨"NPC", 4, 1, "Goblin King", none⟩], [], 9, []⟩

set_option maxRecDepth 10000 in
/-- Witness for the amended C4: `#npc[goblin king]` resolves to the stored
`Goblin King` (no duplicate created) and the link shows the stored casing. -/
theorem claim_C4_amended_lookup_witness :
    lookupFirst dbGK "NPC" 1 "goblin king" = some ⟨"NPC", 4, 1, "Goblin King", none⟩
    ∧ find_or_create_entity "npc" "goblin king" 1 dbGK
        = (some ⟨"NPC", 4, 1, "Goblin King", none⟩, false, dbGK)
    ∧ process_shortcodes "#npc[goblin king]" 1 "session" 3 dbGK
        = (renderLink "npc" ⟨"NPC", 4, 1, "Goblin King", none⟩,
           [⟨1, "session", 3, "npc", 4⟩], dbGK) :=
  claim_C4_amended_lookup "npc" ⟨"NPC", "NPC", "/npcs"⟩ "goblin king" 1 "session" 3
    dbGK ⟨"NPC", 4, 1, "Goblin King", none⟩ (by decide) (by decide) (by decide)
    (by decide) (by decide) (by decide) (by decide) (by decide) (by decide) (by decide)

theorem tryAfterCode_code {code : String} {rest : List Char} {k : String}
    {nm t : List Char} (h : tryAfterCode code rest = some (k, nm, t)) :
    k = code := by
  unfold tryAfterCode at h
  split at h
  case isFalse => exact absurd h (by simp)
  case isTrue hpre =>
    split at h
    case _ ab heq =>
      split at h
      case _ tail heq2 =>
        have h' : (if (List.takeWhile (fun c => c != ']') ab).isEmpty = true then none
            else some (code, List.takeWhile (fun c => c != ']') ab, tail))
            = some (k, nm, t) := h
        by_cases hemp : (List.takeWhile (fun c => c != ']') ab).isEmpty = true
        · rw [if_pos hemp] at h'
          exact absurd h' (by simp)
        · rw [if_neg hemp] at h'
          simp only [Option.some.injEq, Prod.mk.injEq] at h'
          exact h'.1.symm
      case _ heq2 => exact absurd h (by simp)
    case _ heq => exact absurd h (by simp)

theorem tryCodes_mem : ∀ (ks : List String) {rest : List Char} {k : String}
    {nm t : List Char}, tryCodes ks rest = some (k, nm, t) → k ∈ ks := by
  intro ks
  induction ks with
  | nil => intro rest k nm t h; exact absurd h (by simp [tryCodes])
  | cons a as ih =>
    intro rest k nm t h
    unfold tryCodes at h
    cases hac : tryAfterCode a rest with
    | some r =>
      rw [hac] at h
      obtain ⟨k', nm', t'⟩ := r
      simp only [Option.some.injEq] at h
      rw [h] at hac
      rw [tryAfterCode_code hac]
      exact List.mem_cons_self _ _
    | none =>
      rw [hac] at h
      exact List.mem_cons_of_mem _ (ih h)

set_option maxRecDepth 10000 in
/-- Counterexample to C8 as stated: the text `"#foo[#npc[X]]"` contains the
`#type[Name]` occurrence `#foo[#npc[X]]` (type code `foo`, outside the
closed set; name `#npc[X]`... truncated at the first `]`, i.e. `#npc[X`, a
non-empty run of non-`]` characters).  That occurrence is indeed not
matched as a whole, but it does NOT appear unchanged in the output: the
valid marker `#npc[X]` nested inside its brackets is substituted, so the
output differs from the input. -/
theorem claim_C8_counterexample :
    "#foo[#npc[X]]" = "#" ++ "foo" ++ "[" ++ "#npc[X" ++ "]" ++ "]"
    ∧ "foo" ∉ codeList
    ∧ ("#npc[X" : String) ≠ "" ∧ ']' ∉ ("#npc[X" : String).toList
    ∧ process_shortcodes "#foo[#npc[X]]" 1 "session" 2
          ⟨[⟨"NPC", 1, 1, "X", none⟩], [], 5, []⟩
        = ("#foo[" ++ renderLink "npc" ⟨"NPC", 1, 1, "X", none⟩ ++ "]",
           [⟨1, "session", 2, "npc", 1⟩],
           ⟨[⟨"NPC", 1, 1, "X", none⟩], [], 5, []⟩)
    ∧ (process_shortcodes "#foo[#npc[X]]" 1 "session" 2
          ⟨[⟨"NPC", 1, 1, "X", none⟩], [], 5, []⟩).1 ≠ "#foo[#npc[X]]" := by
  decide

/-- C8 (amended): unknown type codes are never matched — every match the
scanner produces carries one of the seven closed-set codes — and a text in
which no position begins a valid marker passes through `process_shortcodes`
verbatim, with no mentions and no database change.  (A valid marker nested
inside an unknown-code occurrence's bracketed name is still substituted at
its own position, so such an occurrence need not survive literally; the
scan is the single left-to-right pass `runSub` over non-overlapping
matches.) -/
theorem claim_C8_unknown_codes (cs : List Char) (k : String) (nm t : List Char)
    (text : String) (cid : Nat) (st : String) (sid : Nat) (db : DB) :
    (tryParse cs = some (k, nm, t) → k ∈ codeList)
    ∧ (noMarker text.toList = true →
        process_shortcodes text cid st sid db = (text, [], db)) := by
  constructor
  · intro h
    match cs with
    | [] => exact absurd h (by simp [tryParse])
    | c :: rest =>
      by_cases hc : c = '#'
      · subst hc
        rw [tryParse_hash] at h
        exact tryCodes_mem codeList h
      · rw [tryParse_not_hash hc] at h
        exact absurd h (by simp)
  · intro h
    unfold process_shortcodes
    split
    · rename_i hemp
      have : text = "" := by
        cases text with
        | mk data =>
          cases data with
          | nil => rfl
          | cons a b =>
            rw [isEmpty_false_of_ne_nil (by simp)] at hemp
            exact absurd hemp (by simp)
      rw [this]
    · rw [scan_noMarker cid st sid text.toList ⟨db, [], []⟩ h]
      rfl

set_option maxRecDepth 10000 in
/-- Witness for the amended C8: a concrete match carries a closed-set code,
and `"#foo[Bar] plain"` (no valid marker anywhere) passes through
unchanged. -/
theorem claim_C8_unknown_codes_witness :
    ("npc" ∈ codeList)
    ∧ process_shortcodes "#foo[Bar] plain" 1 "npc" 1 ⟨[], [], 0, []⟩
        = ("#foo[Bar] plain", [], ⟨[], [], 0, []⟩) :=
  ⟨(claim_C8_unknown_codes "#npc[x]".toList "npc" ['x'] [] "#foo[Bar] plain"
      1 "npc" 1 ⟨[], [], 0, []⟩).1 (by decide),
   (claim_C8_unknown_codes "#npc[x]".toList "npc" ['x'] [] "#foo[Bar] plain"
      1 "npc" 1 ⟨[], [], 0, []⟩).2 (by decide)⟩
